import Mathlib

/-!
Shallow embedding of the annotation/calibration core of the Data-Annotation
repository, together with theorems settling the frozen claims about it.

Conventions of the embedding:
* JavaScript numbers used for coordinates and scales are modelled as `ℚ`
  (exact arithmetic); integer-valued quantities (ids, counts, indices,
  timestamps) are modelled as `ℕ` or `ℤ`.
* `Math.round x` is modelled as `⌊x + 1/2⌋` (JS rounds half toward +∞).
* JS objects used as string-keyed maps are modelled as association lists
  `List (String × β)` whose keys are, as in JS, unique; `Map.get`/property
  lookup is `List.lookup`, `Map.set` is `jsMapSet` below.
* The wall clock (`Date.now()`) is passed in explicitly as a `ℕ` argument.
* Fallible/absent JS values (`undefined`/`null`) are modelled with `Option`;
  the JS truthiness idiom `a || b` on strings, numbers and options is made
  explicit by the `jsOr*` helpers (empty string and `0` are falsy).
-/

/-- JS `Math.round`: rounds to the nearest integer, halves toward +∞. -/
def jsRound (q : ℚ) : ℤ := ⌊q + 1/2⌋

/-- Axis-aligned rectangle `{left, top, width, height}` as used throughout
the repository for regions, in rational (JS-number) coordinates. -/
structure Rect where
  left : ℚ
  top : ℚ
  width : ℚ
  height : ℚ
  deriving DecidableEq, Repr

/-- JS `a || b` where `a` is a possibly-absent string (empty string falsy). -/
def jsOrStr (a : Option String) (b : String) : String :=
  match a with
  | some s => if s = "" then b else s
  | none => b

/-- JS `a || b` where `a` is a possibly-absent number (`0` falsy). -/
def jsOrNum (a : Option ℚ) (b : ℚ) : ℚ :=
  match a with
  | some x => if x = 0 then b else x
  | none => b

/-- JS `a || b` where `a` and `b` are possibly-absent objects (objects are
always truthy, so `a` wins whenever present). -/
def jsOrOpt {α : Type} (a b : Option α) : Option α :=
  match a with
  | some x => some x
  | none => b

/-- JS `Map.prototype.set` / object property assignment on an association
list: replaces the value of an existing key in place, otherwise appends. -/
def jsMapSet {β : Type} (m : List (String × β)) (k : String) (v : β) :
    List (String × β) :=
  if (m.lookup k).isSome then
    m.map (fun p => if p.1 = k then (k, v) else p)
  else
    m ++ [(k, v)]

theorem lookup_append_right {β : Type} (k : String) (v : β) :
    ∀ (m : List (String × β)), m.lookup k = none → (m ++ [(k, v)]).lookup k = some v := by
  intro m
  induction m with
  | nil => intro h; simp [List.lookup]
  | cons p rest ih =>
    obtain ⟨pk, pv⟩ := p
    intro h
    rw [List.lookup_cons] at h
    rw [List.cons_append, List.lookup_cons]
    cases hbe : (k == pk) with
    | true => rw [hbe] at h; exact Option.noConfusion h
    | false => rw [hbe] at h; exact ih h

theorem lookup_map_replace {β : Type} (k : String) (v : β) :
    ∀ (m : List (String × β)), (m.lookup k).isSome →
      (m.map fun p => if p.1 = k then (k, v) else p).lookup k = some v := by
  intro m
  induction m with
  | nil => intro h; simp [List.lookup] at h
  | cons p rest ih =>
    obtain ⟨pk, pv⟩ := p
    intro h
    rw [List.lookup_cons] at h
    by_cases hk : pk = k
    · simp only [List.map_cons, if_pos hk]
      subst hk
      rw [List.lookup_cons]
      have hbe : (pk == pk) = true := by simp
      rw [hbe]
    · have hbe : (k == pk) = false := by
        simp only [beq_eq_false_iff_ne, ne_eq]
        exact fun hkk => hk hkk.symm
      rw [hbe] at h
      simp only [List.map_cons, if_neg hk]
      rw [List.lookup_cons, hbe]
      exact ih h

theorem lookup_jsMapSet {β : Type} (m : List (String × β)) (k : String) (v : β) :
    (jsMapSet m k v).lookup k = some v := by
  unfold jsMapSet
  by_cases h : (m.lookup k).isSome
  · simp only [h, if_true]
    exact lookup_map_replace k v m h
  · simp only [h, if_false]
    apply lookup_append_right
    cases hm : m.lookup k with
    | none => rfl
    | some w => rw [hm] at h; simp at h

namespace CanvasManager

/-- The part of `CanvasManager.imageInfo` that the coordinate conversions
read (`canvas.js` sets it when the image is laid out; it is `null` before). -/
structure ImageInfo where
  scale : ℚ
  deriving DecidableEq, Repr

/-- `CanvasManager.displayToOriginalCoords` (canvas.js): divides each
component by `imageInfo.scale` and rounds; returns the input unchanged when
`imageInfo` is not yet set. -/
def displayToOriginalCoords (imageInfo : Option ImageInfo) (displayRegion : Rect) : Rect :=
  match imageInfo with
  | none => displayRegion
  | some info =>
    { left := (jsRound (displayRegion.left / info.scale) : ℚ)
      top := (jsRound (displayRegion.top / info.scale) : ℚ)
      width := (jsRound (displayRegion.width / info.scale) : ℚ)
      height := (jsRound (displayRegion.height / info.scale) : ℚ) }

/-- `CanvasManager.originalToDisplayCoords` (canvas.js): multiplies each
component by `imageInfo.scale` and rounds; returns the input unchanged when
`imageInfo` is not yet set. -/
def originalToDisplayCoords (imageInfo : Option ImageInfo) (originalRegion : Rect) : Rect :=
  match imageInfo with
  | none => originalRegion
  | some info =>
    { left := (jsRound (originalRegion.left * info.scale) : ℚ)
      top := (jsRound (originalRegion.top * info.scale) : ℚ)
      width := (jsRound (originalRegion.width * info.scale) : ℚ)
      height := (jsRound (originalRegion.height * info.scale) : ℚ) }

end CanvasManager

theorem jsRound_le (q : ℚ) : (jsRound q : ℚ) ≤ q + 1/2 := by
  unfold jsRound
  exact_mod_cast Int.floor_le (q + 1/2)

theorem lt_jsRound (q : ℚ) : q - 1/2 < (jsRound q : ℚ) := by
  unfold jsRound
  have h := Int.lt_floor_add_one (q + 1/2)
  push_cast at h ⊢
  linarith

/-- Scalar round-trip bound: multiplying an integer coordinate by a scale in
`[1/2, 1]`, rounding, dividing back and rounding again moves it by at most 1. -/
theorem jsRound_roundtrip (x : ℤ) (s : ℚ) (hs1 : 1/2 ≤ s) (hs2 : s ≤ 1) :
    |(jsRound ((jsRound ((x : ℚ) * s) : ℚ) / s) : ℤ) - x| ≤ 1 := by
  have hs0 : 0 < s := lt_of_lt_of_le (by norm_num) hs1
  set d : ℤ := jsRound ((x : ℚ) * s) with hd
  have hd1 : (d : ℚ) ≤ (x : ℚ) * s + 1/2 := jsRound_le _
  have hd2 : (x : ℚ) * s - 1/2 < (d : ℚ) := lt_jsRound _
  set r : ℤ := jsRound ((d : ℚ) / s) with hr
  have hr1 : (r : ℚ) ≤ (d : ℚ) / s + 1/2 := jsRound_le _
  have hr2 : (d : ℚ) / s - 1/2 < (r : ℚ) := lt_jsRound _
  have hinv : 1 / (2 * s) ≤ 1 := by
    rw [div_le_one (by linarith)]
    linarith
  have hub : (d : ℚ) / s ≤ (x : ℚ) + 1 / (2 * s) := by
    rw [div_le_iff₀ hs0]
    have : ((x : ℚ) + 1 / (2 * s)) * s = (x : ℚ) * s + 1/2 := by
      field_simp
      ring
    linarith [this]
  have hlb : (x : ℚ) - 1 / (2 * s) < (d : ℚ) / s := by
    rw [lt_div_iff₀ hs0]
    have : ((x : ℚ) - 1 / (2 * s)) * s = (x : ℚ) * s - 1/2 := by
      field_simp
      ring
    linarith [this]
  have hup : (r : ℚ) < (x : ℚ) + 2 := by
    calc (r : ℚ) ≤ (d : ℚ) / s + 1/2 := hr1
      _ ≤ (x : ℚ) + 1 / (2 * s) + 1/2 := by linarith
      _ ≤ (x : ℚ) + 3/2 := by linarith
      _ < (x : ℚ) + 2 := by linarith
  have hdown : (x : ℚ) - 2 < (r : ℚ) := by
    calc (x : ℚ) - 2 < (x : ℚ) - 3/2 := by linarith
      _ ≤ (x : ℚ) - 1 / (2 * s) - 1/2 := by linarith
      _ < (d : ℚ) / s - 1/2 := by linarith
      _ < (r : ℚ) := hr2
  have hupz : r < x + 2 := by exact_mod_cast hup
  have hdownz : x - 2 < r := by exact_mod_cast hdown
  rw [abs_le]
  omega

/-- Rational-valued version of the scalar round-trip bound. -/
theorem jsRound_roundtrip_q (x : ℤ) (s : ℚ) (hs1 : 1/2 ≤ s) (hs2 : s ≤ 1) :
    |((jsRound ((jsRound ((x : ℚ) * s) : ℚ) / s) : ℚ)) - (x : ℚ)| ≤ 1 := by
  have h := jsRound_roundtrip x s hs1 hs2
  have hcast :
      ((jsRound ((jsRound ((x : ℚ) * s) : ℚ) / s) - x : ℤ) : ℚ) =
        ((jsRound ((jsRound ((x : ℚ) * s) : ℚ) / s) : ℚ)) - (x : ℚ) := by
    push_cast
    ring
  rw [← hcast]
  rw [← Int.cast_abs]
  exact_mod_cast h

namespace CalibrationApp

/-- `CalibrationApp.displayToOriginalCoords` (batch-processor.js): identical
body to the `CanvasManager` version, reading `this.imageInfo.scale`. -/
def displayToOriginalCoords (imageInfo : Option CanvasManager.ImageInfo)
    (displayRegion : Rect) : Rect :=
  match imageInfo with
  | none => displayRegion
  | some info =>
    { left := (jsRound (displayRegion.left / info.scale) : ℚ)
      top := (jsRound (displayRegion.top / info.scale) : ℚ)
      width := (jsRound (displayRegion.width / info.scale) : ℚ)
      height := (jsRound (displayRegion.height / info.scale) : ℚ) }

end CalibrationApp

/-- C4 counterexample: at scale `s = 1/10` (which satisfies `0 < s ≤ 1`) the
round trip already moves the component `14` to `10`, an error of 4 pixels,
so the claimed ±1 tolerance fails as stated. -/
theorem coord_roundtrip_cex :
    CanvasManager.displayToOriginalCoords (some ⟨1/10⟩)
        (CanvasManager.originalToDisplayCoords (some ⟨1/10⟩) ⟨14, 14, 14, 14⟩) =
      ⟨10, 10, 10, 10⟩ ∧
    ¬ |(CanvasManager.displayToOriginalCoords (some ⟨1/10⟩)
        (CanvasManager.originalToDisplayCoords (some ⟨1/10⟩) ⟨14, 14, 14, 14⟩)).left
        - (14 : ℚ)| ≤ 1 := by
  have e1 : jsRound ((14 : ℚ) * (1/10)) = 1 := by norm_num [jsRound, Int.floor_eq_iff]
  have e2 : jsRound ((1 : ℚ) / (1/10)) = 10 := by norm_num [jsRound, Int.floor_eq_iff]
  have hfwd : CanvasManager.originalToDisplayCoords (some ⟨1/10⟩) ⟨14, 14, 14, 14⟩ =
      ⟨1, 1, 1, 1⟩ := by
    simp only [CanvasManager.originalToDisplayCoords, e1]
    norm_num
  have hback : CanvasManager.displayToOriginalCoords (some ⟨1/10⟩)
      (CanvasManager.originalToDisplayCoords (some ⟨1/10⟩) ⟨14, 14, 14, 14⟩) =
      ⟨10, 10, 10, 10⟩ := by
    rw [hfwd]
    simp only [CanvasManager.displayToOriginalCoords, e2]
    norm_num
  refine ⟨hback, ?_⟩
  rw [hback]
  norm_num

/-- Claim C4 (corrected): for every rectangle with integer components and
every scale `s` with `1/2 ≤ s ≤ 1`, converting to display coordinates
(`originalToDisplayCoords`, multiply and round) and back
(`displayToOriginalCoords`, divide and round) moves every component by at
most 1 pixel.  For `s < 1/2` the bound can fail (see the counterexample). -/
theorem coord_roundtrip_amended (l t w h : ℤ) (s : ℚ) (hs1 : 1/2 ≤ s) (hs2 : s ≤ 1) :
    |(CanvasManager.displayToOriginalCoords (some ⟨s⟩)
        (CanvasManager.originalToDisplayCoords (some ⟨s⟩)
          ⟨(l : ℚ), (t : ℚ), (w : ℚ), (h : ℚ)⟩)).left - (l : ℚ)| ≤ 1 ∧
    |(CanvasManager.displayToOriginalCoords (some ⟨s⟩)
        (CanvasManager.originalToDisplayCoords (some ⟨s⟩)
          ⟨(l : ℚ), (t : ℚ), (w : ℚ), (h : ℚ)⟩)).top - (t : ℚ)| ≤ 1 ∧
    |(CanvasManager.displayToOriginalCoords (some ⟨s⟩)
        (CanvasManager.originalToDisplayCoords (some ⟨s⟩)
          ⟨(l : ℚ), (t : ℚ), (w : ℚ), (h : ℚ)⟩)).width - (w : ℚ)| ≤ 1 ∧
    |(CanvasManager.displayToOriginalCoords (some ⟨s⟩)
        (CanvasManager.originalToDisplayCoords (some ⟨s⟩)
          ⟨(l : ℚ), (t : ℚ), (w : ℚ), (h : ℚ)⟩)).height - (h : ℚ)| ≤ 1 := by
  refine ⟨?_, ?_, ?_, ?_⟩ <;>
    simpa [CanvasManager.displayToOriginalCoords, CanvasManager.originalToDisplayCoords]
      using jsRound_roundtrip_q _ s hs1 hs2

/-- C4 witness: the amended round-trip bound instantiated at a concrete
rectangle and the concrete scale `1/2`. -/
theorem coord_roundtrip_amended_witness :
    |(CanvasManager.displayToOriginalCoords (some ⟨1/2⟩)
        (CanvasManager.originalToDisplayCoords (some ⟨1/2⟩)
          ⟨((3 : ℤ) : ℚ), ((5 : ℤ) : ℚ), ((7 : ℤ) : ℚ), ((9 : ℤ) : ℚ)⟩)).left - ((3 : ℤ) : ℚ)| ≤ 1 ∧
    |(CanvasManager.displayToOriginalCoords (some ⟨1/2⟩)
        (CanvasManager.originalToDisplayCoords (some ⟨1/2⟩)
          ⟨((3 : ℤ) : ℚ), ((5 : ℤ) : ℚ), ((7 : ℤ) : ℚ), ((9 : ℤ) : ℚ)⟩)).top - ((5 : ℤ) : ℚ)| ≤ 1 ∧
    |(CanvasManager.displayToOriginalCoords (some ⟨1/2⟩)
        (CanvasManager.originalToDisplayCoords (some ⟨1/2⟩)
          ⟨((3 : ℤ) : ℚ), ((5 : ℤ) : ℚ), ((7 : ℤ) : ℚ), ((9 : ℤ) : ℚ)⟩)).width - ((7 : ℤ) : ℚ)| ≤ 1 ∧
    |(CanvasManager.displayToOriginalCoords (some ⟨1/2⟩)
        (CanvasManager.originalToDisplayCoords (some ⟨1/2⟩)
          ⟨((3 : ℤ) : ℚ), ((5 : ℤ) : ℚ), ((7 : ℤ) : ℚ), ((9 : ℤ) : ℚ)⟩)).height - ((9 : ℤ) : ℚ)| ≤ 1 :=
  coord_roundtrip_amended 3 5 7 9 (1/2) (by norm_num) (by norm_num)

/-- C9 counterexample: with image metadata present and `scale = 0`,
`originalToDisplayCoords` maps the rectangle `⟨1, 1, 1, 1⟩` to `⟨0, 0, 0, 0⟩`
rather than returning it unchanged, so the claimed scale-0 identity guard
does not exist in the code (only missing metadata is guarded). -/
theorem scale_zero_guard_cex :
    CanvasManager.originalToDisplayCoords (some ⟨0⟩) ⟨1, 1, 1, 1⟩ = ⟨0, 0, 0, 0⟩ ∧
    CanvasManager.originalToDisplayCoords (some ⟨0⟩) ⟨1, 1, 1, 1⟩ ≠ ⟨1, 1, 1, 1⟩ := by
  have e0 : jsRound ((1 : ℚ) * 0) = 0 := by norm_num [jsRound, Int.floor_eq_iff]
  have hz : CanvasManager.originalToDisplayCoords (some ⟨0⟩) ⟨1, 1, 1, 1⟩ =
      ⟨0, 0, 0, 0⟩ := by
    simp only [CanvasManager.originalToDisplayCoords, e0]
    norm_num
  refine ⟨hz, ?_⟩
  rw [hz]
  intro h
  have h1 : (Rect.mk 0 0 0 0).left = (Rect.mk 1 1 1 1).left := by rw [h]
  norm_num at h1

/-- Claim C9 (corrected): the conversions return the input rectangle
unchanged exactly in the missing-metadata case (`imageInfo` not yet set);
this holds for both the `CanvasManager` and the `CalibrationApp` copies of
`displayToOriginalCoords` and for `originalToDisplayCoords`.  When metadata
is present with `scale = 0` there is no guard: `originalToDisplayCoords`
collapses every rectangle to the zero rectangle instead. -/
theorem scale_zero_guard_amended (r : Rect) :
    CanvasManager.displayToOriginalCoords none r = r ∧
    CanvasManager.originalToDisplayCoords none r = r ∧
    CalibrationApp.displayToOriginalCoords none r = r ∧
    CanvasManager.originalToDisplayCoords (some ⟨0⟩) r = ⟨0, 0, 0, 0⟩ := by
  refine ⟨rfl, rfl, rfl, ?_⟩
  simp only [CanvasManager.originalToDisplayCoords]
  norm_num [jsRound]

namespace OptimizedStorageManager

/-- `metadata` sub-record carried by every chunk record (progress-manager.js). -/
structure ChunkMeta where
  type : String
  size : ℕ
  lastModified : ℕ
  deriving DecidableEq, Repr

/-- An image descriptor as held in memory before chunked saving; `dataURL`
is the base64 data-URI string, modelled as its list of UTF-16 code units. -/
structure ImageFile where
  name : String
  type : String
  size : ℕ
  lastModified : ℕ
  dataURL : List ℕ
  deriving DecidableEq, Repr

/-- One stored chunk record, as written by `saveImageInChunks`. -/
structure ChunkRecord where
  id : String
  folderId : ℕ
  imageName : String
  imageIndex : ℕ
  chunkIndex : ℕ
  totalChunks : ℕ
  data : List ℕ
  metadata : ChunkMeta
  createdAt : ℕ
  deriving DecidableEq, Repr

/-- The reassembled image returned by `reconstructImageFromChunks`. -/
structure ReconstructedImage where
  name : String
  type : String
  size : ℕ
  lastModified : ℕ
  dataURL : List ℕ
  originalIndex : ℕ
  deriving DecidableEq, Repr

/-- `OptimizedStorageManager.saveImageInChunks` (progress-manager.js): splits
`image.dataURL` into `Math.ceil(length / chunkSize)` slices of at most
`chunkSize` units (`dataURL.slice(start, min(start + chunkSize, length))`)
and emits one chunk record per slice.  `Math.ceil(length / chunkSize)` is
modelled as `(length + chunkSize - 1) / chunkSize` (equal for
`chunkSize ≥ 1`; the config uses a fixed 1 MB chunk size). -/
def saveImageInChunks (folderId : ℕ) (image : ImageFile) (imageIndex : ℕ)
    (chunkSize : ℕ) (now : ℕ) : List ChunkRecord :=
  let len := image.dataURL.length
  let totalChunks := (len + chunkSize - 1) / chunkSize
  (List.range totalChunks).map (fun chunkIndex =>
    let start := chunkIndex * chunkSize
    let stop := min (start + chunkSize) len
    { id := toString folderId ++ "_" ++ image.name ++ "_" ++ toString chunkIndex
      folderId := folderId
      imageName := image.name
      imageIndex := imageIndex
      chunkIndex := chunkIndex
      totalChunks := totalChunks
      data := (image.dataURL.drop start).take (stop - start)
      metadata := ⟨image.type, image.size, image.lastModified⟩
      createdAt := now })

/-- The comparison used by `chunks.sort((a, b) => a.chunkIndex - b.chunkIndex)`. -/
def chunkLE (a b : ChunkRecord) : Prop := a.chunkIndex ≤ b.chunkIndex

instance : DecidableRel chunkLE := fun a b => Nat.decLe a.chunkIndex b.chunkIndex

/-- `OptimizedStorageManager.reconstructImageFromChunks` (progress-manager.js):
sorts the chunks of one image by `chunkIndex`, checks that the number of
chunks matches `totalChunks` recorded on the (sorted-)first chunk, and
concatenates the chunk data; returns `none` (the JS `null`, via the
`try/catch` for an empty group and the explicit completeness check) when the
group is empty or incomplete. -/
def reconstructImageFromChunks (imageName : String) (chunks : List ChunkRecord) :
    Option ReconstructedImage :=
  match List.insertionSort chunkLE chunks with
  | [] => none
  | c0 :: rest =>
    if (c0 :: rest).length = c0.totalChunks then
      some { name := imageName
             type := c0.metadata.type
             size := c0.metadata.size
             lastModified := c0.metadata.lastModified
             dataURL := ((c0 :: rest).map (fun c => c.data)).flatten
             originalIndex := c0.imageIndex }
    else none

/-- All stored chunk records carrying a given image name, in storage order
(the cursor in `getImageFiles` pushes them into the per-name group in the
order it meets them). -/
def chunksFor (records : List ChunkRecord) (nm : String) : List ChunkRecord :=
  records.filter (fun c => c.imageName = nm)

/-- First-occurrence deduplication, mirroring the key order of the JS `Map`
that `getImageFiles` builds while scanning the cursor. -/
def firstDedup : List String → List String
  | [] => []
  | x :: xs => x :: (firstDedup xs).filter (fun y => ¬ y = x)

/-- The `imageName → chunks` map built by the cursor scan in `getImageFiles`:
keys in first-appearance order, each mapped to its records in scan order. -/
def groupByName (records : List ChunkRecord) : List (String × List ChunkRecord) :=
  (firstDedup (records.map (fun c => c.imageName))).map
    (fun nm => (nm, chunksFor records nm))

/-- The optional `{ start, count }` range filter of `getImageFiles`. -/
structure RangeOpt where
  start : ℕ
  count : ℕ
  deriving DecidableEq, Repr

/-- The comparison used by `imageFiles.sort((a, b) => (a.originalIndex || 0) -
(b.originalIndex || 0))`. -/
def imageIndexLE (a b : ReconstructedImage) : Prop := a.originalIndex ≤ b.originalIndex

instance : DecidableRel imageIndexLE := fun a b => Nat.decLe a.originalIndex b.originalIndex

/-- `OptimizedStorageManager.getImageFiles` (progress-manager.js): groups the
folder's chunk records by image name, applies the optional index range
filter (using the first chunk met for the image), reconstructs each group,
keeps only the successfully reconstructed images, and sorts the result by
original image index. -/
def getImageFiles (records : List ChunkRecord) (range : Option RangeOpt) :
    List ReconstructedImage :=
  let files := (groupByName records).filterMap (fun g =>
    match g.2 with
    | [] => none
    | c0 :: _ =>
      match range with
      | some rg =>
        if c0.imageIndex < rg.start ∨ rg.start + rg.count ≤ c0.imageIndex then none
        else reconstructImageFromChunks g.1 g.2
      | none => reconstructImageFromChunks g.1 g.2)
  List.insertionSort imageIndexLE files

/-- The chunk group of one image after the `chunkIndex` sort performed by
`reconstructImageFromChunks`. -/
def sortedChunksFor (records : List ChunkRecord) (nm : String) : List ChunkRecord :=
  List.insertionSort chunkLE (chunksFor records nm)

/-- The number of chunks actually stored for an image. -/
def chunkCount (records : List ChunkRecord) (nm : String) : ℕ :=
  (chunksFor records nm).length

/-- The `totalChunks` value recorded on an image's (sorted-)first chunk —
the completeness reference used by `reconstructImageFromChunks`. -/
def recordedTotal (records : List ChunkRecord) (nm : String) : ℕ :=
  match sortedChunksFor records nm with
  | [] => 0
  | c0 :: _ => c0.totalChunks

/-- Reassembly as the claim describes it: the records of one image, sorted
by `chunkIndex`, their data concatenated. -/
def reassembleFor (records : List ChunkRecord) (nm : String) : List ℕ :=
  ((sortedChunksFor records nm).map (fun c => c.data)).flatten

end OptimizedStorageManager

namespace OptimizedStorageManager

theorem take_min_slice (P : List ℕ) (s C : ℕ) :
    (P.drop s).take (min (s + C) P.length - s) = (P.drop s).take C := by
  rcases le_or_lt (s + C) P.length with h | h
  · rw [min_eq_left h]
    congr 1
    omega
  · rw [min_eq_right (le_of_lt h)]
    have hl : (P.drop s).length = P.length - s := List.length_drop s P
    rw [List.take_of_length_le (by omega), List.take_of_length_le (by omega)]

theorem join_chunk_slices (P : List ℕ) (C : ℕ) :
    ∀ n, ((List.range n).map (fun i => (P.drop (i * C)).take C)).flatten = P.take (n * C) := by
  intro n
  induction n with
  | zero => simp
  | succ n ih =>
    rw [List.range_succ, List.map_append, List.flatten_append]
    simp only [List.map_cons, List.map_nil, List.flatten_cons, List.flatten_nil,
      List.append_nil, ih]
    rw [Nat.succ_mul, List.take_add]

theorem ceil_mul_ge (len C : ℕ) (hC : 1 ≤ C) : len ≤ ((len + C - 1) / C) * C := by
  have hdm := Nat.div_add_mod (len + C - 1) C
  have hlt : (len + C - 1) % C < C := Nat.mod_lt _ (by omega)
  rw [mul_comm]
  set q := (len + C - 1) / C with hq
  set r := (len + C - 1) % C with hr
  set m := C * q with hm
  omega

theorem saveImageInChunks_imageName (folderId : ℕ) (image : ImageFile)
    (imageIndex chunkSize now : ℕ) (c : ChunkRecord)
    (hc : c ∈ saveImageInChunks folderId image imageIndex chunkSize now) :
    c.imageName = image.name := by
  unfold saveImageInChunks at hc
  simp only [List.mem_map, List.mem_range] at hc
  obtain ⟨i, _, rfl⟩ := hc
  rfl

theorem saveImageInChunks_sorted (folderId : ℕ) (image : ImageFile)
    (imageIndex chunkSize now : ℕ) :
    List.Sorted chunkLE (saveImageInChunks folderId image imageIndex chunkSize now) := by
  unfold saveImageInChunks
  rw [List.Sorted, List.pairwise_map]
  exact (List.pairwise_le_range _).imp (fun h => h)

/-- Claim C2 (confirmed): chunking any payload with any chunk size `C ≥ 1`
via `saveImageInChunks` and then reassembling the stored records for that
image name — group by name, sort by `chunkIndex`, concatenate the data —
returns exactly the original payload (all lengths, including 0). -/
theorem chunk_roundtrip (folderId : ℕ) (image : ImageFile)
    (imageIndex chunkSize now : ℕ) (hC : 1 ≤ chunkSize) :
    reassembleFor (saveImageInChunks folderId image imageIndex chunkSize now) image.name =
      image.dataURL := by
  unfold reassembleFor sortedChunksFor
  have hfilter : chunksFor (saveImageInChunks folderId image imageIndex chunkSize now)
      image.name = saveImageInChunks folderId image imageIndex chunkSize now := by
    unfold chunksFor
    rw [List.filter_eq_self]
    intro c hc
    simp [saveImageInChunks_imageName folderId image imageIndex chunkSize now c hc]
  rw [hfilter, (saveImageInChunks_sorted folderId image imageIndex chunkSize now).insertionSort_eq]
  unfold saveImageInChunks
  simp only [List.map_map]
  have hdata : ((fun c : ChunkRecord => c.data) ∘ fun chunkIndex =>
      ({ id := toString folderId ++ "_" ++ image.name ++ "_" ++ toString chunkIndex
         folderId := folderId
         imageName := image.name
         imageIndex := imageIndex
         chunkIndex := chunkIndex
         totalChunks := (image.dataURL.length + chunkSize - 1) / chunkSize
         data := (image.dataURL.drop (chunkIndex * chunkSize)).take
           (min (chunkIndex * chunkSize + chunkSize) image.dataURL.length - chunkIndex * chunkSize)
         metadata := ⟨image.type, image.size, image.lastModified⟩
         createdAt := now } : ChunkRecord)) =
      fun i => (image.dataURL.drop (i * chunkSize)).take chunkSize := by
    funext i
    simp only [Function.comp_apply]
    exact take_min_slice image.dataURL (i * chunkSize) chunkSize
  rw [hdata, join_chunk_slices]
  exact List.take_of_length_le (ceil_mul_ge image.dataURL.length chunkSize hC)

/-- C2 witness: round trip at a concrete payload of 5 units with chunk
size 2 (so lengths C-1, C, C+1 regimes are exercised by the slices). -/
theorem chunk_roundtrip_witness :
    reassembleFor (saveImageInChunks 7 ⟨"a.jpg", "image/jpeg", 5, 0, [10, 11, 12, 13, 14]⟩ 0 2 1000)
        "a.jpg" = [10, 11, 12, 13, 14] :=
  chunk_roundtrip 7 ⟨"a.jpg", "image/jpeg", 5, 0, [10, 11, 12, 13, 14]⟩ 0 2 1000 (by norm_num)

end OptimizedStorageManager

namespace OptimizedStorageManager

theorem mem_firstDedup (a : String) : ∀ (l : List String), a ∈ firstDedup l ↔ a ∈ l := by
  intro l
  induction l with
  | nil => simp [firstDedup]
  | cons x xs ih =>
    simp only [firstDedup, List.mem_cons, List.mem_filter, ih, decide_eq_true_eq]
    by_cases hax : a = x
    · simp [hax]
    · simp [hax]

theorem chunksFor_ne_nil (records : List ChunkRecord) (nm : String)
    (h : nm ∈ firstDedup (records.map (fun c => c.imageName))) :
    chunksFor records nm ≠ [] := by
  rw [mem_firstDedup, List.mem_map] at h
  obtain ⟨c, hc, hnm⟩ := h
  intro hnil
  have hmem : c ∈ chunksFor records nm := by
    unfold chunksFor
    rw [List.mem_filter]
    exact ⟨hc, by simp [hnm]⟩
  rw [hnil] at hmem
  exact List.not_mem_nil c hmem

theorem reconstruct_nil_eq (nm : String) (chunks : List ChunkRecord)
    (hs : List.insertionSort chunkLE chunks = []) :
    reconstructImageFromChunks nm chunks = none := by
  unfold reconstructImageFromChunks
  rw [hs]

theorem reconstruct_cons_eq (nm : String) (chunks : List ChunkRecord)
    (c0 : ChunkRecord) (rest : List ChunkRecord)
    (hs : List.insertionSort chunkLE chunks = c0 :: rest) :
    reconstructImageFromChunks nm chunks =
      if (c0 :: rest).length = c0.totalChunks then
        some { name := nm
               type := c0.metadata.type
               size := c0.metadata.size
               lastModified := c0.metadata.lastModified
               dataURL := ((c0 :: rest).map (fun c => c.data)).flatten
               originalIndex := c0.imageIndex }
      else none := by
  unfold reconstructImageFromChunks
  rw [hs]

theorem reconstruct_of_complete (records : List ChunkRecord) (nm : String)
    (hne : chunksFor records nm ≠ [])
    (hcomp : chunkCount records nm = recordedTotal records nm) :
    ∃ f, reconstructImageFromChunks nm (chunksFor records nm) = some f ∧
      f.name = nm ∧ f.dataURL = reassembleFor records nm := by
  cases hs : List.insertionSort chunkLE (chunksFor records nm) with
  | nil =>
    exfalso
    apply hne
    have hl := List.length_insertionSort chunkLE (chunksFor records nm)
    rw [hs] at hl
    exact List.length_eq_zero.mp hl.symm
  | cons c0 rest =>
    have hsrt : sortedChunksFor records nm = c0 :: rest := hs
    have hlen : (c0 :: rest).length = (chunksFor records nm).length := by
      have hl := List.length_insertionSort chunkLE (chunksFor records nm)
      rw [hs] at hl
      exact hl
    have hrt : recordedTotal records nm = c0.totalChunks := by
      unfold recordedTotal
      rw [hsrt]
    have hcond : (c0 :: rest).length = c0.totalChunks := by
      rw [hlen]
      unfold chunkCount at hcomp
      rw [hcomp, hrt]
    refine ⟨{ name := nm
              type := c0.metadata.type
              size := c0.metadata.size
              lastModified := c0.metadata.lastModified
              dataURL := ((c0 :: rest).map (fun c => c.data)).flatten
              originalIndex := c0.imageIndex }, ?_, rfl, ?_⟩
    · rw [reconstruct_cons_eq nm (chunksFor records nm) c0 rest hs, if_pos hcond]
    · unfold reassembleFor
      rw [hsrt]

theorem reconstruct_complete_of_some (records : List ChunkRecord) (nm : String)
    (f : ReconstructedImage)
    (h : reconstructImageFromChunks nm (chunksFor records nm) = some f) :
    f.name = nm ∧ chunkCount records nm = recordedTotal records nm := by
  cases hs : List.insertionSort chunkLE (chunksFor records nm) with
  | nil =>
    rw [reconstruct_nil_eq nm (chunksFor records nm) hs] at h
    exact Option.noConfusion h
  | cons c0 rest =>
    rw [reconstruct_cons_eq nm (chunksFor records nm) c0 rest hs] at h
    by_cases hcond : (c0 :: rest).length = c0.totalChunks
    · rw [if_pos hcond] at h
      have hf := Option.some.inj h
      constructor
      · rw [← hf]
      · have hsrt : sortedChunksFor records nm = c0 :: rest := hs
        have hrt : recordedTotal records nm = c0.totalChunks := by
          unfold recordedTotal
          rw [hsrt]
        have hlen : (c0 :: rest).length = (chunksFor records nm).length := by
          have hl := List.length_insertionSort chunkLE (chunksFor records nm)
          rw [hs] at hl
          exact hl
        unfold chunkCount
        rw [hrt, ← hcond, hlen]
    · rw [if_neg hcond] at h
      exact Option.noConfusion h

theorem mem_getImageFiles_none (records : List ChunkRecord) (f : ReconstructedImage) :
    f ∈ getImageFiles records none ↔
      ∃ nm ∈ firstDedup (records.map (fun c => c.imageName)),
        reconstructImageFromChunks nm (chunksFor records nm) = some f := by
  unfold getImageFiles
  rw [List.mem_insertionSort, List.mem_filterMap]
  constructor
  · rintro ⟨g, hg, hfg⟩
    unfold groupByName at hg
    rw [List.mem_map] at hg
    obtain ⟨nm, hnm, rfl⟩ := hg
    refine ⟨nm, hnm, ?_⟩
    cases hch : chunksFor records nm with
    | nil =>
      rw [hch] at hfg
      exact Option.noConfusion hfg
    | cons c0 rest =>
      rw [hch] at hfg
      exact hfg
  · rintro ⟨nm, hnm, hrec⟩
    refine ⟨(nm, chunksFor records nm), ?_, ?_⟩
    · unfold groupByName
      exact List.mem_map.mpr ⟨nm, hnm, rfl⟩
    · cases hch : chunksFor records nm with
      | nil => exact absurd hch (chunksFor_ne_nil records nm hnm)
      | cons c0 rest =>
        rw [hch] at hrec
        exact hrec

/-- Claim C3 (confirmed): whenever some image's stored chunk set has fewer
chunks than its recorded `totalChunks`, `getImageFiles` (no range) still
returns, for every image whose chunk set is complete, a reassembled entry
(sorted chunk data concatenated), and omits every incomplete image; the
function is total, so no exception reaches the caller (the per-image
`try/catch` in `reconstructImageFromChunks` turns failures into skips). -/
theorem partial_chunk_isolation (records : List ChunkRecord)
    (hbad : ∃ nm ∈ firstDedup (records.map (fun c => c.imageName)),
      chunkCount records nm < recordedTotal records nm) :
    ∀ nm ∈ firstDedup (records.map (fun c => c.imageName)),
      (chunkCount records nm = recordedTotal records nm →
        ∃ f ∈ getImageFiles records none,
          f.name = nm ∧ f.dataURL = reassembleFor records nm) ∧
      (chunkCount records nm < recordedTotal records nm →
        ∀ f ∈ getImageFiles records none, ¬ f.name = nm) := by
  intro nm hnm
  constructor
  · intro hcomp
    obtain ⟨f, hf, hname, hdata⟩ :=
      reconstruct_of_complete records nm (chunksFor_ne_nil records nm hnm) hcomp
    exact ⟨f, (mem_getImageFiles_none records f).mpr ⟨nm, hnm, hf⟩, hname, hdata⟩
  · intro hinc f hf hname
    obtain ⟨nm2, hnm2, hrec⟩ := (mem_getImageFiles_none records f).mp hf
    obtain ⟨hname2, hcomp⟩ := reconstruct_complete_of_some records nm2 f hrec
    rw [hname] at hname2
    rw [hname2] at hinc
    omega

end OptimizedStorageManager

namespace OptimizedStorageManager

/-- A concrete stored-chunk set for three images in one folder: `a.jpg` and
`c.jpg` are complete, `b.jpg` records `totalChunks = 2` but only one chunk
is present (a partial write). -/
def chunkWitnessRecords : List ChunkRecord :=
  [ { id := "1_a.jpg_0", folderId := 1, imageName := "a.jpg", imageIndex := 0,
      chunkIndex := 0, totalChunks := 1, data := [1, 2],
      metadata := ⟨"image/jpeg", 2, 0⟩, createdAt := 99 },
    { id := "1_b.jpg_0", folderId := 1, imageName := "b.jpg", imageIndex := 1,
      chunkIndex := 0, totalChunks := 2, data := [3],
      metadata := ⟨"image/jpeg", 3, 0⟩, createdAt := 99 },
    { id := "1_c.jpg_0", folderId := 1, imageName := "c.jpg", imageIndex := 2,
      chunkIndex := 0, totalChunks := 1, data := [4, 5],
      metadata := ⟨"image/jpeg", 2, 0⟩, createdAt := 99 } ]

/-- C3 witness: the isolation theorem applied to the concrete three-image
folder in which `b.jpg` is missing one chunk. -/
theorem partial_chunk_isolation_witness :
    (∃ nm ∈ firstDedup (chunkWitnessRecords.map (fun c => c.imageName)),
      chunkCount chunkWitnessRecords nm < recordedTotal chunkWitnessRecords nm) ∧
    (∀ nm ∈ firstDedup (chunkWitnessRecords.map (fun c => c.imageName)),
      (chunkCount chunkWitnessRecords nm = recordedTotal chunkWitnessRecords nm →
        ∃ f ∈ getImageFiles chunkWitnessRecords none,
          f.name = nm ∧ f.dataURL = reassembleFor chunkWitnessRecords nm) ∧
      (chunkCount chunkWitnessRecords nm < recordedTotal chunkWitnessRecords nm →
        ∀ f ∈ getImageFiles chunkWitnessRecords none, ¬ f.name = nm)) :=
  ⟨by decide, partial_chunk_isolation chunkWitnessRecords (by decide)⟩

end OptimizedStorageManager

/-- A region value as it may appear in raw OCR output: either already a
rectangle object or an array of corner points (the `Array.isArray` branch in
the consumers).  The point-array form keeps its first point separate so that
`Math.min(...xs)` is always applied to a nonempty list, as in every OCR
response the code handles. -/
inductive LocVal where
  | rect (r : Rect)
  | pts (first : ℚ × ℚ) (rest : List (ℚ × ℚ))
  deriving DecidableEq, Repr

/-- One raw OCR item inside `ocrResults[imageName].words_result`, with the
fields the embedded code reads (JS objects are open; absent fields are
`none`). -/
structure OCRItem where
  text : Option String := none
  words : Option String := none
  location : Option LocVal := none
  text_region : Option LocVal := none
  confidence : Option ℚ := none
  deriving DecidableEq, Repr

/-- The per-image OCR result record (`{words_result, ...}`). -/
structure OCRData where
  words_result : Option (List OCRItem) := none
  deriving DecidableEq, Repr

/-- One annotation record (`{id, text, region, isManual}`) as created by
seeding and by the manual add paths in batch-processor.js. -/
structure Ann where
  id : ℕ
  text : String
  region : Option Rect
  isManual : Bool
  deriving DecidableEq, Repr

/-- The per-image annotation set stored in `folder.annotations[imageName]`. -/
structure AnnSet where
  imageName : String
  textRegions : List Ann
  deriving DecidableEq, Repr

/-- The derived counters of `folder.metadata`. -/
structure FolderMeta where
  totalImages : ℕ
  processedImages : ℕ
  calibratedImages : ℕ
  deriving DecidableEq, Repr

/-- A folder object (both the in-memory argument of `saveFolder` and the
stored record), with the fields the embedded code reads or writes; JS
fields that may be absent are `Option`s. -/
structure Folder where
  id : Option ℕ := none
  name : Option String := none
  folderName : Option String := none
  status : Option String := none
  imageFiles : Option (List OptimizedStorageManager.ImageFile) := none
  ocrResults : Option (List (String × OCRData)) := none
  annotations : Option (List (String × AnnSet)) := none
  createdAt : Option String := none
  updatedAt : Option String := none
  metadata : Option FolderMeta := none
  deriving DecidableEq, Repr

/-- `Object.keys(m).length` of a JS object modelled as an association list:
the number of distinct keys. -/
def countKeys {β : Type} (m : List (String × β)) : ℕ :=
  ((m.map Prod.fst).dedup).length

namespace StorageManager

/-- `StorageManager.saveFolder` (storage.js), its pure record-building part:
builds the record that is handed to IndexedDB `put`/`add` (`now` is the
`new Date().toISOString()` string).  The `id` of a `put` is the given id;
`add`-assigned keys are not modelled.  The `metadata` counters are
recomputed here from `imageFiles`, `ocrResults` and `annotations`; the
incoming `folderData.metadata` is never read. -/
def saveFolder (folderData : Folder) (now : String) : Folder :=
  { id := folderData.id
    name := none
    folderName := folderData.name
    status := some (jsOrStr folderData.status "unprocessed")
    imageFiles := some (folderData.imageFiles.getD [])
    ocrResults := some (folderData.ocrResults.getD [])
    annotations := some (folderData.annotations.getD [])
    createdAt := some (jsOrStr folderData.createdAt now)
    updatedAt := some now
    metadata := some
      { totalImages := (folderData.imageFiles.map (fun l => l.length)).getD 0
        processedImages := (folderData.ocrResults.getD []).length
        calibratedImages := (folderData.annotations.getD []).length } }

end StorageManager

/-- Claim C5 (confirmed): the record persisted by `saveFolder` carries
`metadata` counters equal to the length of its own `imageFiles` list and to
the key counts of its own `ocrResults` and `annotations` maps (key
uniqueness is the JS-object invariant), and these counters are recomputed
on every save: the incoming `metadata` field has no influence on the
result. -/
theorem saveFolder_counters (folderData : Folder) (now : String)
    (hocr : ((folderData.ocrResults.getD []).map Prod.fst).Nodup)
    (hann : ((folderData.annotations.getD []).map Prod.fst).Nodup) :
    ∃ m, (StorageManager.saveFolder folderData now).metadata = some m ∧
      m.totalImages = ((StorageManager.saveFolder folderData now).imageFiles.getD []).length ∧
      m.processedImages = countKeys ((StorageManager.saveFolder folderData now).ocrResults.getD []) ∧
      m.calibratedImages = countKeys ((StorageManager.saveFolder folderData now).annotations.getD []) ∧
      (∀ meta2 : Option FolderMeta,
        StorageManager.saveFolder { folderData with metadata := meta2 } now =
          StorageManager.saveFolder folderData now) := by
  refine ⟨_, rfl, ?_, ?_, ?_, ?_⟩
  · simp only [StorageManager.saveFolder, Option.getD_some]
    cases folderData.imageFiles with
    | none => rfl
    | some l => rfl
  · simp only [StorageManager.saveFolder, Option.getD_some, countKeys]
    rw [List.Nodup.dedup hocr, List.length_map]
  · simp only [StorageManager.saveFolder, Option.getD_some, countKeys]
    rw [List.Nodup.dedup hann, List.length_map]
  · intro meta2
    rfl

/-- A concrete folder input for the C5 witness, with deliberately wrong
incoming metadata. -/
def folderC5 : Folder :=
  { name := some "f", status := some "unprocessed",
    imageFiles := some [⟨"a.jpg", "image/jpeg", 1, 0, [7]⟩],
    ocrResults := some [("a.jpg", { words_result := some [] })],
    annotations := none,
    metadata := some ⟨99, 99, 99⟩ }

/-- C5 witness: the counters theorem applied to a concrete folder whose
incoming metadata is deliberately wrong, showing it is recomputed. -/
theorem saveFolder_counters_witness :
    ∃ m, (StorageManager.saveFolder folderC5 "t0").metadata = some m ∧
      m.totalImages = ((StorageManager.saveFolder folderC5 "t0").imageFiles.getD []).length ∧
      m.processedImages = countKeys ((StorageManager.saveFolder folderC5 "t0").ocrResults.getD []) ∧
      m.calibratedImages = countKeys ((StorageManager.saveFolder folderC5 "t0").annotations.getD []) ∧
      (∀ meta2 : Option FolderMeta,
        StorageManager.saveFolder { folderC5 with metadata := meta2 } "t0" =
          StorageManager.saveFolder folderC5 "t0") :=
  saveFolder_counters folderC5 "t0" (by decide) (by decide)

/-- JS object spread `{...a, ...b}` on association lists: the keys of `a`
in order, their values overridden by `b` where present, followed by the
entries of `b` whose keys are new. -/
def jsSpreadMerge {β : Type} (a b : List (String × β)) : List (String × β) :=
  a.map (fun p =>
    match b.lookup p.1 with
    | some v => (p.1, v)
    | none => p) ++
  b.filter (fun p => (a.lookup p.1).isNone)

theorem lookup_append_cases {β : Type} (k : String) :
    ∀ (l1 l2 : List (String × β)), (l1 ++ l2).lookup k =
      match l1.lookup k with
      | some v => some v
      | none => l2.lookup k := by
  intro l1 l2
  induction l1 with
  | nil => simp
  | cons p rest ih =>
    obtain ⟨pk, pv⟩ := p
    rw [List.cons_append, List.lookup_cons, List.lookup_cons]
    cases hbe : (k == pk) with
    | true => rfl
    | false => exact ih

theorem lookup_merge_mapped {β : Type} (k : String) (b : List (String × β)) :
    ∀ (a : List (String × β)),
      (a.map (fun p =>
        match b.lookup p.1 with
        | some v => (p.1, v)
        | none => p)).lookup k =
      (a.lookup k).map (fun w => (b.lookup k).getD w) := by
  intro a
  induction a with
  | nil => rfl
  | cons p rest ih =>
    obtain ⟨pk, pv⟩ := p
    simp only [List.map_cons]
    cases hb : b.lookup pk with
    | some v =>
      rw [List.lookup_cons]
      cases hbe : (k == pk) with
      | true =>
        have hk : k = pk := by
          have := hbe
          exact eq_of_beq this
        rw [List.lookup_cons, hbe]
        subst hk
        rw [hb]
        rfl
      | false =>
        rw [List.lookup_cons, hbe]
        exact ih
    | none =>
      rw [List.lookup_cons]
      cases hbe : (k == pk) with
      | true =>
        have hk : k = pk := eq_of_beq hbe
        rw [List.lookup_cons, hbe]
        subst hk
        rw [hb]
        rfl
      | false =>
        rw [List.lookup_cons, hbe]
        exact ih

theorem lookup_filter_keep {β : Type} (k : String) (pr : String × β → Bool) :
    ∀ (b : List (String × β)), (∀ q ∈ b, q.1 = k → pr q = true) →
      (b.filter pr).lookup k = b.lookup k := by
  intro b
  induction b with
  | nil => intro h; rfl
  | cons q rest ih =>
    obtain ⟨qk, qv⟩ := q
    intro h
    by_cases hk : qk = k
    · have hpr : pr (qk, qv) = true := h (qk, qv) (List.mem_cons_self _ _) hk
      rw [List.filter_cons_of_pos hpr, List.lookup_cons, List.lookup_cons]
      cases hbe : (k == qk) with
      | true => rfl
      | false =>
        exact ih (fun q hq hqk => h q (List.mem_cons_of_mem _ hq) hqk)
    · have hbe : (k == qk) = false := by
        simp only [beq_eq_false_iff_ne, ne_eq]
        exact fun hkk => hk hkk.symm
      rw [List.lookup_cons, hbe]
      by_cases hpr : pr (qk, qv) = true
      · rw [List.filter_cons_of_pos hpr, List.lookup_cons, hbe]
        exact ih (fun q hq hqk => h q (List.mem_cons_of_mem _ hq) hqk)
      · rw [List.filter_cons_of_neg (by simpa using hpr)]
        exact ih (fun q hq hqk => h q (List.mem_cons_of_mem _ hq) hqk)

theorem lookup_eq_none_iff_keys {β : Type} (k : String) :
    ∀ (l : List (String × β)), l.lookup k = none ↔ k ∉ l.map Prod.fst := by
  intro l
  induction l with
  | nil => simp
  | cons p rest ih =>
    obtain ⟨pk, pv⟩ := p
    rw [List.lookup_cons]
    cases hbe : (k == pk) with
    | true =>
      have hk : k = pk := eq_of_beq hbe
      subst hk
      simp
    | false =>
      have hk : ¬ k = pk := by
        intro hkk
        rw [hkk] at hbe
        simp at hbe
      simp only [List.map_cons, List.mem_cons]
      rw [ih]
      constructor
      · intro hnone hmem
        rcases hmem with hmem | hmem
        · exact hk hmem
        · exact hnone hmem
      · intro hnmem hmem
        exact hnmem (Or.inr hmem)

theorem lookup_jsSpreadMerge_right {β : Type} (a b : List (String × β)) (k : String)
    (v : β) (h : b.lookup k = some v) : (jsSpreadMerge a b).lookup k = some v := by
  unfold jsSpreadMerge
  rw [lookup_append_cases, lookup_merge_mapped]
  cases ha : a.lookup k with
  | some w => rw [h]; rfl
  | none =>
    have hkeep : ∀ q ∈ b, q.1 = k → ((a.lookup q.1).isNone : Bool) = true := by
      intro q hq hqk
      rw [hqk, ha]
      rfl
    rw [lookup_filter_keep k _ b hkeep, h]
    rfl

theorem lookup_jsSpreadMerge_left {β : Type} (a b : List (String × β)) (k : String)
    (h : b.lookup k = none) : (jsSpreadMerge a b).lookup k = a.lookup k := by
  unfold jsSpreadMerge
  rw [lookup_append_cases, lookup_merge_mapped]
  cases ha : a.lookup k with
  | some w => rw [h]; rfl
  | none =>
    have hkeep : ∀ q ∈ b, q.1 = k → ((a.lookup q.1).isNone : Bool) = true := by
      intro q hq hqk
      rw [hqk, ha]
      rfl
    rw [lookup_filter_keep k _ b hkeep, h]
    rfl

theorem jsSpreadMerge_keys {β : Type} (a b : List (String × β)) :
    (jsSpreadMerge a b).map Prod.fst =
      a.map Prod.fst ++ (b.filter (fun p => (a.lookup p.1).isNone)).map Prod.fst := by
  unfold jsSpreadMerge
  rw [List.map_append, List.map_map]
  congr 1
  apply List.map_congr_left
  intro p hp
  cases hb : b.lookup p.1 with
  | some v => simp [hb]
  | none => simp [hb]

theorem jsSpreadMerge_keys_nodup {β : Type} (a b : List (String × β))
    (hna : (a.map Prod.fst).Nodup) (hnb : (b.map Prod.fst).Nodup) :
    ((jsSpreadMerge a b).map Prod.fst).Nodup := by
  rw [jsSpreadMerge_keys, List.nodup_append]
  refine ⟨hna, ?_, ?_⟩
  · exact hnb.sublist (List.Sublist.map Prod.fst (List.filter_sublist b))
  · intro k hka hkb
    rw [List.mem_map] at hkb
    obtain ⟨q, hq, hqk⟩ := hkb
    rw [List.mem_filter] at hq
    have hnone : (a.lookup q.1).isNone = true := hq.2
    rw [hqk] at hnone
    have : a.lookup k = none := by
      cases hl : a.lookup k with
      | none => rfl
      | some w => rw [hl] at hnone; exact Bool.noConfusion hnone
    exact (lookup_eq_none_iff_keys k a).mp this hka

theorem countKeys_eq_length {β : Type} (m : List (String × β))
    (h : (m.map Prod.fst).Nodup) : countKeys m = m.length := by
  unfold countKeys
  rw [List.Nodup.dedup h, List.length_map]

namespace StorageManager

/-- `StorageManager.updateFolderOCRResults` (storage.js), its pure state
transform: the fetched folder (the `getFolderById` I/O and the
folder-not-found throw are outside the model) gets its `ocrResults` merged
with the new per-image results via object spread, `metadata.processedImages`
set to the merged key count, its status promoted to `processed` when that
count reaches `metadata.totalImages`, and is then re-persisted through
`saveFolder`. -/
def updateFolderOCRResults (folder : Folder) (ocrResults : List (String × OCRData))
    (now : String) : Folder :=
  let merged := jsSpreadMerge (folder.ocrResults.getD []) ocrResults
  let meta := folder.metadata.getD ⟨0, 0, 0⟩
  saveFolder
    { folder with
      ocrResults := some merged
      updatedAt := some now
      metadata := some { meta with processedImages := merged.length }
      status := if merged.length = meta.totalImages then some "processed" else folder.status }
    now

end StorageManager

/-- Claim C10 (confirmed): `updateFolderOCRResults` merges rather than
replaces: the persisted record's `ocrResults` has the new value for every
supplied image name and the old value for every other name; its
`processedImages` counter equals the key count of the merged map; and its
status is `processed` exactly when that count equals the stored
`metadata.totalImages`, otherwise the previous status is kept. -/
theorem updateFolderOCRResults_spec (folder : Folder)
    (newResults : List (String × OCRData)) (now : String)
    (m : FolderMeta) (s : String)
    (hmeta : folder.metadata = some m)
    (hstat : folder.status = some s) (hsne : ¬ s = "")
    (hnodup1 : ((folder.ocrResults.getD []).map Prod.fst).Nodup)
    (hnodup2 : (newResults.map Prod.fst).Nodup) :
    ∃ merged,
      (StorageManager.updateFolderOCRResults folder newResults now).ocrResults =
        some merged ∧
      (∀ k v, newResults.lookup k = some v → merged.lookup k = some v) ∧
      (∀ k, newResults.lookup k = none →
        merged.lookup k = (folder.ocrResults.getD []).lookup k) ∧
      (∃ m2, (StorageManager.updateFolderOCRResults folder newResults now).metadata =
          some m2 ∧ m2.processedImages = countKeys merged) ∧
      (StorageManager.updateFolderOCRResults folder newResults now).status =
        some (if countKeys merged = m.totalImages then "processed" else s) := by
  refine ⟨jsSpreadMerge (folder.ocrResults.getD []) newResults, rfl, ?_, ?_, ?_, ?_⟩
  · intro k v h
    exact lookup_jsSpreadMerge_right _ _ k v h
  · intro k h
    exact lookup_jsSpreadMerge_left _ _ k h
  · refine ⟨_, rfl, ?_⟩
    have hlen := countKeys_eq_length _
      (jsSpreadMerge_keys_nodup (folder.ocrResults.getD []) newResults hnodup1 hnodup2)
    simp only [StorageManager.updateFolderOCRResults, StorageManager.saveFolder,
      Option.getD_some]
    exact hlen.symm
  · have hlen := countKeys_eq_length _
      (jsSpreadMerge_keys_nodup (folder.ocrResults.getD []) newResults hnodup1 hnodup2)
    simp only [StorageManager.updateFolderOCRResults, StorageManager.saveFolder,
      hmeta, Option.getD_some, hlen]
    by_cases hc : (jsSpreadMerge (folder.ocrResults.getD []) newResults).length =
        m.totalImages
    · rw [if_pos hc, if_pos hc]
      simp [jsOrStr]
    · rw [if_neg hc, if_neg hc, hstat]
      simp [jsOrStr, hsne]

/-- A concrete stored folder for the C10 witness: two images, one already
processed, status still `unprocessed`. -/
def folderC10 : Folder :=
  { status := some "unprocessed",
    imageFiles := some [⟨"a.jpg", "image/jpeg", 1, 0, [1]⟩, ⟨"b.jpg", "image/jpeg", 1, 0, [2]⟩],
    ocrResults := some [("a.jpg", { words_result := some [] })],
    annotations := some [],
    metadata := some ⟨2, 1, 0⟩ }

/-- The fresh per-image OCR results merged in by the C10 witness. -/
def newResultsC10 : List (String × OCRData) :=
  [("b.jpg", { words_result := some [{ words := some "hi" }] })]

/-- C10 witness: the merge/recount/promote theorem applied to the concrete
folder in which the update completes the second of two images. -/
theorem updateFolderOCRResults_spec_witness :
    ∃ merged,
      (StorageManager.updateFolderOCRResults folderC10 newResultsC10 "t1").ocrResults =
        some merged ∧
      (∀ k v, newResultsC10.lookup k = some v → merged.lookup k = some v) ∧
      (∀ k, newResultsC10.lookup k = none →
        merged.lookup k = (folderC10.ocrResults.getD []).lookup k) ∧
      (∃ m2, (StorageManager.updateFolderOCRResults folderC10 newResultsC10 "t1").metadata =
          some m2 ∧ m2.processedImages = countKeys merged) ∧
      (StorageManager.updateFolderOCRResults folderC10 newResultsC10 "t1").status =
        some (if countKeys merged = (⟨2, 1, 0⟩ : FolderMeta).totalImages
          then "processed" else "unprocessed") :=
  updateFolderOCRResults_spec folderC10 newResultsC10 "t1" ⟨2, 1, 0⟩ "unprocessed"
    rfl rfl (by decide) (by decide) (by decide)

namespace APIManager

/-- `APIManager.convertBboxToLocation` (api.js): a bbox that is missing,
not an array, or shorter than 4 points yields the placeholder rectangle
`{left: 0, top: 0, width: 100, height: 30}`; otherwise the first four
`[x, y]` corner pairs are reduced to their rounded axis-aligned bounding
rectangle (`none` covers both the missing and the non-array case). -/
def convertBboxToLocation (bbox : Option (List (ℚ × ℚ))) : Rect :=
  match bbox with
  | some (p1 :: p2 :: p3 :: p4 :: _) =>
    let left := min (min (min p1.1 p2.1) p3.1) p4.1
    let top := min (min (min p1.2 p2.2) p3.2) p4.2
    let right := max (max (max p1.1 p2.1) p3.1) p4.1
    let bottom := max (max (max p1.2 p2.2) p3.2) p4.2
    { left := (jsRound left : ℚ)
      top := (jsRound top : ℚ)
      width := (jsRound (right - left) : ℚ)
      height := (jsRound (bottom - top) : ℚ) }
  | _ => ⟨0, 0, 100, 30⟩

end APIManager

/-- Claim C7 (confirmed): for a quadrilateral bbox of 4 corner pairs the
normalizer returns the rounded axis-aligned bounding rectangle (left/top
the coordinate minima, width/height the extents), and for a missing,
non-array or too-short bbox it returns the `{0, 0, 100, 30}` placeholder,
so no annotation is dropped for lacking geometry. -/
theorem region_normalizer_spec :
    (∀ p1 p2 p3 p4 : ℚ × ℚ,
      APIManager.convertBboxToLocation (some [p1, p2, p3, p4]) =
        { left := (jsRound (min (min (min p1.1 p2.1) p3.1) p4.1) : ℚ)
          top := (jsRound (min (min (min p1.2 p2.2) p3.2) p4.2) : ℚ)
          width := (jsRound (max (max (max p1.1 p2.1) p3.1) p4.1 -
            min (min (min p1.1 p2.1) p3.1) p4.1) : ℚ)
          height := (jsRound (max (max (max p1.2 p2.2) p3.2) p4.2 -
            min (min (min p1.2 p2.2) p3.2) p4.2) : ℚ) }) ∧
    APIManager.convertBboxToLocation none = ⟨0, 0, 100, 30⟩ ∧
    (∀ l : List (ℚ × ℚ), l.length < 4 →
      APIManager.convertBboxToLocation (some l) = ⟨0, 0, 100, 30⟩) := by
  refine ⟨fun p1 p2 p3 p4 => rfl, rfl, ?_⟩
  intro l hlen
  rcases l with _ | ⟨a, _ | ⟨b, _ | ⟨c, _ | ⟨d, t⟩⟩⟩⟩
  · rfl
  · rfl
  · rfl
  · rfl
  · simp at hlen
    omega

/-- C7 witness: the normalizer theorem applied to a concrete axis-aligned
quadrilateral and to a concrete too-short point list. -/
theorem region_normalizer_spec_witness :
    APIManager.convertBboxToLocation (some [((3 : ℚ), 4), (10, 4), (10, 9), (3, 9)]) =
      { left := (jsRound (min (min (min (3 : ℚ) 10) 10) 3) : ℚ)
        top := (jsRound (min (min (min (4 : ℚ) 4) 9) 9) : ℚ)
        width := (jsRound (max (max (max (3 : ℚ) 10) 10) 3 -
          min (min (min (3 : ℚ) 10) 10) 3) : ℚ)
        height := (jsRound (max (max (max (4 : ℚ) 4) 9) 9 -
          min (min (min (4 : ℚ) 4) 9) 9) : ℚ) } ∧
    APIManager.convertBboxToLocation (some [((0 : ℚ), 0)]) = ⟨0, 0, 100, 30⟩ :=
  ⟨region_normalizer_spec.1 (3, 4) (10, 4) (10, 9) (3, 9),
   region_normalizer_spec.2.2 [(0, 0)] (by norm_num)⟩

namespace OCRAnnotationTool

/-- One OCR item as consumed by `OCRAnnotationTool.displayOCRResults`
(`{words, location}`; this tool's items always carry a text string). -/
structure OCRWord where
  words : String
  location : Option Rect
  deriving DecidableEq, Repr

/-- `OCRAnnotationTool.displayOCRResults` (the seeding part): when the
current image has no annotation list yet (a missing entry or an existing
empty list both have `length === 0`), every raw OCR item is converted to a
machine annotation (`id = Date.now() + index`, region from `item.location`
or `generateDefaultRegion(index)`, `isManual = false`) and stored;
otherwise the call leaves the store unchanged.  `ocrResult = none` models
both a missing result and a missing `words_result` (the early return);
`defaultRegion` abstracts `generateDefaultRegion`, which reads the canvas
geometry. -/
def displayOCRResults (annotations : List (String × List Ann))
    (currentFileName : String) (ocrResult : Option (List OCRWord)) (now : ℕ)
    (defaultRegion : ℕ → Rect) : List (String × List Ann) :=
  match ocrResult with
  | none => annotations
  | some ws =>
    if ((annotations.lookup currentFileName).getD []).length = 0 then
      jsMapSet annotations currentFileName
        (ws.enum.map (fun iw =>
          { id := now + iw.1
            text := iw.2.words
            region := some (iw.2.location.getD (defaultRegion iw.1))
            isManual := false }))
    else annotations

end OCRAnnotationTool

namespace CalibrationApp

/-- The location normalization inside `CalibrationApp.loadImageAnnotations`
(batch-processor.js): a missing location with a truthy `words` gets a
synthetic grid rectangle, an array location is reduced to its unrounded
bounding rectangle, a rectangle location passes through, and a missing
location with falsy `words` stays missing. -/
def locFromItem (item : OCRItem) (index : ℕ) : Option Rect :=
  match item.location with
  | none =>
    if ¬ jsOrStr item.words "" = "" then
      some { left := 50 + 120 * (index : ℚ)
             top := 50 + 40 * ((index / 3 : ℕ) : ℚ)
             width := 100
             height := 30 }
    else none
  | some (LocVal.pts p rest) =>
    let minX := (rest.map Prod.fst).foldl min p.1
    let minY := (rest.map Prod.snd).foldl min p.2
    let maxX := (rest.map Prod.fst).foldl max p.1
    let maxY := (rest.map Prod.snd).foldl max p.2
    some { left := minX, top := minY, width := maxX - minX, height := maxY - minY }
  | some (LocVal.rect r) => some r

/-- `CalibrationApp.loadImageAnnotations` (batch-processor.js), the seeding
part of the state transform: when the image has no (or an empty) annotation
list and a nonempty OCR `words_result` exists for it, the raw items are
converted to machine annotations (`id = Date.now() + index`) and stored;
in every other case the annotation store is unchanged.  (The trailing
drawing/DOM calls have no effect on the store.) -/
def loadImageAnnotations (annotations : List (String × List Ann))
    (ocrResults : List (String × OCRData)) (imageName : String) (now : ℕ) :
    List (String × List Ann) :=
  if ((annotations.lookup imageName).getD []).length = 0 then
    match ocrResults.lookup imageName with
    | none => annotations
    | some ocrResult =>
      match ocrResult.words_result with
      | none => annotations
      | some ws =>
        if 0 < ws.length then
          jsMapSet annotations imageName
            (ws.enum.map (fun iw =>
              { id := now + iw.1
                text := jsOrStr iw.2.text (jsOrStr iw.2.words "")
                region := locFromItem iw.2 iw.1
                isManual := false }))
        else annotations
  else annotations

end CalibrationApp

theorem displayOCRResults_noop (annotations : List (String × List Ann))
    (name : String) (oc : Option (List OCRAnnotationTool.OCRWord)) (now : ℕ)
    (dr : ℕ → Rect) (h : ¬ ((annotations.lookup name).getD []) = []) :
    OCRAnnotationTool.displayOCRResults annotations name oc now dr = annotations := by
  cases oc with
  | none => rfl
  | some ws =>
    simp only [OCRAnnotationTool.displayOCRResults]
    rw [if_neg]
    intro hlen
    exact h (List.length_eq_zero.mp hlen)

theorem loadImageAnnotations_noop (annotations : List (String × List Ann))
    (ocrResults : List (String × OCRData)) (name : String) (now : ℕ)
    (h : ¬ ((annotations.lookup name).getD []) = []) :
    CalibrationApp.loadImageAnnotations annotations ocrResults name now = annotations := by
  unfold CalibrationApp.loadImageAnnotations
  rw [if_neg]
  intro hlen
  exact h (List.length_eq_zero.mp hlen)

/-- C1 counterexample: seeding `a.jpg` first from an OCR result with an
empty `words_result` stores an (empty) annotation list; a second seed call
with a different, nonempty raw list then re-seeds instead of being a no-op,
so seeding twice is not the same as seeding once and an existing (empty)
list is overwritten. -/
theorem seed_idempotent_cex :
    (((OCRAnnotationTool.displayOCRResults
        (OCRAnnotationTool.displayOCRResults [] "a.jpg" (some []) 1000 (fun _ => ⟨0, 0, 200, 30⟩))
        "a.jpg" (some [⟨"hi", none⟩]) 2000 (fun _ => ⟨0, 0, 200, 30⟩)).lookup "a.jpg").getD []).length = 1 ∧
    (((OCRAnnotationTool.displayOCRResults [] "a.jpg" (some []) 1000
        (fun _ => ⟨0, 0, 200, 30⟩)).lookup "a.jpg").getD []).length = 0 ∧
    OCRAnnotationTool.displayOCRResults
        (OCRAnnotationTool.displayOCRResults [] "a.jpg" (some []) 1000 (fun _ => ⟨0, 0, 200, 30⟩))
        "a.jpg" (some [⟨"hi", none⟩]) 2000 (fun _ => ⟨0, 0, 200, 30⟩) ≠
      OCRAnnotationTool.displayOCRResults [] "a.jpg" (some []) 1000 (fun _ => ⟨0, 0, 200, 30⟩) := by
  refine ⟨rfl, rfl, ?_⟩
  intro h
  have h1 : (((OCRAnnotationTool.displayOCRResults
      (OCRAnnotationTool.displayOCRResults [] "a.jpg" (some []) 1000 (fun _ => ⟨0, 0, 200, 30⟩))
      "a.jpg" (some [⟨"hi", none⟩]) 2000 (fun _ => ⟨0, 0, 200, 30⟩)).lookup "a.jpg").getD []).length = 1 := rfl
  rw [h] at h1
  have h0 : (((OCRAnnotationTool.displayOCRResults [] "a.jpg" (some []) 1000
      (fun _ => ⟨0, 0, 200, 30⟩)).lookup "a.jpg").getD []).length = 0 := rfl
  rw [h1] at h0
  exact Nat.noConfusion h0

/-- Claim C1 (corrected): seeding is a no-op — and hence idempotent —
whenever a *nonempty* annotation list already exists for the image, even if
the raw OCR list passed the second time differs; `loadImageAnnotations`
(whose raw input is read from the folder state itself) is idempotent as a
state transform unconditionally.  When the stored list is empty (seeded
from an empty OCR result, or emptied by the user), a later
`displayOCRResults` call re-seeds, replacing the list — the original
claim's unconditional idempotence fails exactly there. -/
theorem seed_idempotent_amended :
    (∀ (annotations : List (String × List Ann)) (name : String)
        (oc1 oc2 : Option (List OCRAnnotationTool.OCRWord)) (now1 now2 : ℕ)
        (dr1 dr2 : ℕ → Rect),
      ¬ (((OCRAnnotationTool.displayOCRResults annotations name oc1 now1 dr1).lookup
          name).getD []) = [] →
      OCRAnnotationTool.displayOCRResults
          (OCRAnnotationTool.displayOCRResults annotations name oc1 now1 dr1)
          name oc2 now2 dr2 =
        OCRAnnotationTool.displayOCRResults annotations name oc1 now1 dr1) ∧
    (∀ (annotations : List (String × List Ann)) (ocrResults : List (String × OCRData))
        (name : String) (now1 now2 : ℕ),
      CalibrationApp.loadImageAnnotations
          (CalibrationApp.loadImageAnnotations annotations ocrResults name now1)
          ocrResults name now2 =
        CalibrationApp.loadImageAnnotations annotations ocrResults name now1) := by
  constructor
  · intro annotations name oc1 oc2 now1 now2 dr1 dr2 h
    exact displayOCRResults_noop _ name oc2 now2 dr2 h
  · intro annotations ocrResults name now1 now2
    by_cases h0 : ((annotations.lookup name).getD []) = []
    · have hcond : ((annotations.lookup name).getD []).length = 0 := by
        rw [h0]
        rfl
      cases hlk : ocrResults.lookup name with
      | none =>
        have hst : ∀ now, CalibrationApp.loadImageAnnotations annotations ocrResults name now =
            annotations := by
          intro now
          simp [CalibrationApp.loadImageAnnotations, hcond, hlk]
        rw [hst now1, hst now2]
      | some ocrResult =>
        cases hws : ocrResult.words_result with
        | none =>
          have hst : ∀ now, CalibrationApp.loadImageAnnotations annotations ocrResults name now =
              annotations := by
            intro now
            simp [CalibrationApp.loadImageAnnotations, hcond, hlk, hws]
          rw [hst now1, hst now2]
        | some ws =>
          by_cases hl : 0 < ws.length
          · have hst1 : CalibrationApp.loadImageAnnotations annotations ocrResults name now1 =
                jsMapSet annotations name
                  (ws.enum.map (fun iw =>
                    { id := now1 + iw.1
                      text := jsOrStr iw.2.text (jsOrStr iw.2.words "")
                      region := CalibrationApp.locFromItem iw.2 iw.1
                      isManual := false })) := by
              simp [CalibrationApp.loadImageAnnotations, hcond, hlk, hws, hl]
            rw [hst1]
            apply loadImageAnnotations_noop
            rw [lookup_jsMapSet]
            intro hnil
            have hlen := congrArg List.length hnil
            simp only [Option.getD_some, List.length_map, List.enum_length,
              List.length_nil] at hlen
            omega
          · have hst : ∀ now, CalibrationApp.loadImageAnnotations annotations ocrResults name now =
                annotations := by
              intro now
              simp [CalibrationApp.loadImageAnnotations, hcond, hlk, hws, hl]
            rw [hst now1, hst now2]
    · rw [loadImageAnnotations_noop annotations ocrResults name now1 h0,
        loadImageAnnotations_noop annotations ocrResults name now2 h0]

/-- C1 witness: the amended idempotence applied at concrete inputs — a
first seed with one nonempty raw item makes the second seed (with a
different raw list) a no-op, and a concrete double `loadImageAnnotations`
call equals a single one. -/
theorem seed_idempotent_amended_witness :
    OCRAnnotationTool.displayOCRResults
        (OCRAnnotationTool.displayOCRResults [] "a.jpg" (some [⟨"hi", none⟩]) 1000
          (fun _ => ⟨0, 0, 200, 30⟩))
        "a.jpg" (some [⟨"bye", none⟩, ⟨"again", none⟩]) 2000 (fun _ => ⟨0, 0, 200, 30⟩) =
      OCRAnnotationTool.displayOCRResults [] "a.jpg" (some [⟨"hi", none⟩]) 1000
        (fun _ => ⟨0, 0, 200, 30⟩) ∧
    CalibrationApp.loadImageAnnotations
        (CalibrationApp.loadImageAnnotations []
          [("a.jpg", { words_result := some [{ words := some "hi" }] })] "a.jpg" 1000)
        [("a.jpg", { words_result := some [{ words := some "hi" }] })] "a.jpg" 2000 =
      CalibrationApp.loadImageAnnotations []
        [("a.jpg", { words_result := some [{ words := some "hi" }] })] "a.jpg" 1000 :=
  ⟨seed_idempotent_amended.1 [] "a.jpg" (some [⟨"hi", none⟩])
      (some [⟨"bye", none⟩, ⟨"again", none⟩]) 1000 2000
      (fun _ => ⟨0, 0, 200, 30⟩) (fun _ => ⟨0, 0, 200, 30⟩)
      (by
        intro h
        have h1 : (((OCRAnnotationTool.displayOCRResults [] "a.jpg" (some [⟨"hi", none⟩]) 1000
            (fun _ => ⟨0, 0, 200, 30⟩)).lookup "a.jpg").getD []).length = 1 := rfl
        rw [h] at h1
        exact Nat.noConfusion h1),
   seed_idempotent_amended.2 []
      [("a.jpg", { words_result := some [{ words := some "hi" }] })] "a.jpg" 1000 2000⟩

namespace CalibrationApp

/-- `CalibrationApp.addNewTextItem` (batch-processor.js): appends a manual
annotation with `id = Date.now()`, empty text and the fixed 50/50/100/30
region to the current image's list. -/
def addNewTextItem (annotations : List (String × List Ann))
    (currentFileName : String) (now : ℕ) : List (String × List Ann) :=
  jsMapSet annotations currentFileName
    (((annotations.lookup currentFileName).getD []) ++
      [{ id := now, text := "", region := some ⟨50, 50, 100, 30⟩, isManual := true }])

/-- The annotation-creating tail of `CalibrationApp.handleMouseUp`
(batch-processor.js): after the size check and the coordinate conversion it
appends a manual annotation with `id = Date.now()`, empty text and the
drawn (converted) region. -/
def handleMouseUpAdd (annotations : List (String × List Ann))
    (currentFileName : String) (originalRegion : Rect) (now : ℕ) :
    List (String × List Ann) :=
  jsMapSet annotations currentFileName
    (((annotations.lookup currentFileName).getD []) ++
      [{ id := now, text := "", region := some originalRegion, isManual := true }])

end CalibrationApp

/-- Claim C8 (code bug): annotation ids are wall-clock values
(`Date.now()`, `Date.now() + index`), so two manual adds inside the same
millisecond receive the same id — after two `addNewTextItem` calls at
`now = 1000` the image's id list is `[1000, 1000]`, which is not pairwise
distinct.  The spec's uniqueness requirement is the documented intent (its
design notes call this a bug to fix), so the claim is right and the code is
wrong. -/
theorem annotation_id_collision :
    ((((CalibrationApp.addNewTextItem
        (CalibrationApp.addNewTextItem [] "a.jpg" 1000) "a.jpg" 1000).lookup
          "a.jpg").getD []).map (fun a => a.id)) = [1000, 1000] ∧
    ¬ ((((CalibrationApp.addNewTextItem
        (CalibrationApp.addNewTextItem [] "a.jpg" 1000) "a.jpg" 1000).lookup
          "a.jpg").getD []).map (fun a => a.id)).Nodup := by
  constructor
  · rfl
  · intro h
    have h1 : ((((CalibrationApp.addNewTextItem
        (CalibrationApp.addNewTextItem [] "a.jpg" 1000) "a.jpg" 1000).lookup
          "a.jpg").getD []).map (fun a => a.id)) = [1000, 1000] := rfl
    rw [h1] at h
    simp at h

namespace DashboardManager

/-- One entry of the export document's `originalOCR.textRegions`. -/
structure OCRRegionOut where
  text : String
  position : Option LocVal
  confidence : ℚ
  deriving DecidableEq, Repr

/-- The export document's `originalOCR` block. -/
structure OrigOCR where
  confidence : String
  textRegions : List OCRRegionOut
  deriving DecidableEq, Repr

/-- One entry of the export document's `calibratedText.textRegions`. -/
structure CalRegionOut where
  text : String
  position : Option Rect
  source : String
  isManuallyAdded : Bool
  deriving DecidableEq, Repr

/-- The export document's `calibratedText` block. -/
structure CalText where
  confidence : String
  textRegions : List CalRegionOut
  fullText : String
  deriving DecidableEq, Repr

/-- The export document's `modifications` diff summary. -/
structure Mods where
  textChanged : Bool
  annotationsAdded : ℤ
  annotationsDeleted : ℤ
  totalEdits : ℤ
  deriving DecidableEq, Repr

/-- The per-image entry of the export document. -/
structure ImageExport where
  originalOCR : Option OrigOCR
  calibratedText : Option CalText
  modifications : Mods
  deriving DecidableEq, Repr

/-- The export document's `folderInfo` header. -/
structure FolderInfoOut where
  name : Option String
  status : Option String
  totalImages : ℕ
  processedAt : Option String
  calibratedAt : Option String
  deriving DecidableEq, Repr

/-- The result of `DashboardManager.processExportData`. -/
structure ExportResult where
  folderInfo : FolderInfoOut
  images : List (String × ImageExport)
  deriving DecidableEq, Repr


/-- The `originalOCR` block built by `processExportData` for one image:
present iff the folder has an OCR result for it; each `words_result` item
becomes `{text: item.text || item.words || '', position: item.location ||
item.text_region, confidence: item.confidence || 0.8}`. -/
def origOCRFor (folder : Folder) (imageName : String) : Option OrigOCR :=
  ((folder.ocrResults.getD []).lookup imageName).map (fun ocrResult =>
    { confidence := "OCR自动识别"
      textRegions := (ocrResult.words_result.getD []).map (fun item =>
        { text := jsOrStr item.text (jsOrStr item.words "")
          position := jsOrOpt item.location item.text_region
          confidence := jsOrNum item.confidence (4/5) }) })

/-- The `modifications` block computed by `processExportData` when a
calibrated annotation list exists (dashboard.js lines 999–1011).  The
`JSON.stringify` comparison of the two text arrays is modelled as equality
on `Option (List String)`: `none` is the `undefined` produced when
`originalOCR` is `null`, `JSON.stringify` is injective on arrays of
strings, and `undefined` differs from every array string. -/
def modificationsFor (origOCR : Option OrigOCR) (textRegions : List Ann) : Mods :=
  let originalCount : ℤ := ((origOCR.map (fun o => o.textRegions.length)).getD 0 : ℕ)
  let calibratedCount : ℤ := textRegions.length
  let manualCount : ℤ := (textRegions.filter (fun r => r.isManual)).length
  { textChanged :=
      decide (¬ originalCount = calibratedCount) ||
      decide (¬ (origOCR.map (fun o => o.textRegions.map (fun r => r.text))) =
        some ((textRegions.filter (fun r => !r.isManual)).map (fun r => r.text)))
    annotationsAdded := manualCount
    annotationsDeleted := max 0 (originalCount - (calibratedCount - manualCount))
    totalEdits := |originalCount - calibratedCount| + manualCount }

/-- The per-image body of `DashboardManager.processExportData`
(dashboard.js): the `originalOCR` view, the `calibratedText` view when the
image has a calibrated annotation list, and the `modifications` summary
(its default all-zero value when there is none). -/
def imageExportFor (folder : Folder) (imageName : String) : ImageExport :=
  match (folder.annotations.getD []).lookup imageName with
  | none =>
    { originalOCR := origOCRFor folder imageName
      calibratedText := none
      modifications :=
        { textChanged := false, annotationsAdded := 0, annotationsDeleted := 0, totalEdits := 0 } }
  | some ann =>
    { originalOCR := origOCRFor folder imageName
      calibratedText := some
        { confidence := "人工校准确认"
          textRegions := ann.textRegions.map (fun r =>
            { text := r.text
              position := r.region
              source := if r.isManual then "手动添加" else "OCR+校准"
              isManuallyAdded := r.isManual })
          fullText := (String.intercalate " " (ann.textRegions.map (fun r => r.text))).trim }
      modifications := modificationsFor (origOCRFor folder imageName) ann.textRegions }

/-- `DashboardManager.processExportData` (dashboard.js): header block plus
one export entry per folder image. -/
def processExportData (folder : Folder) : ExportResult :=
  { folderInfo :=
      { name := folder.folderName
        status := folder.status
        totalImages := (folder.metadata.map (fun m => m.totalImages)).getD 0
        processedAt := folder.createdAt
        calibratedAt := folder.updatedAt }
    images := (folder.imageFiles.getD []).map (fun imageFile =>
      (imageFile.name, imageExportFor folder imageFile.name)) }

end DashboardManager

/-- Claim-side helper for C6, following the claim's words: the texts of the
image's original OCR regions (`item.text || item.words || ''` for each
`words_result` item), absent when the image was never processed. -/
def specOrigTexts (folder : Folder) (imageName : String) : Option (List String) :=
  ((folder.ocrResults.getD []).lookup imageName).map (fun oc =>
    (oc.words_result.getD []).map (fun item => jsOrStr item.text (jsOrStr item.words "")))

/-- Claim-side helper for C6: the number of original OCR regions (0 when
the image was never processed). -/
def specOrigCount (folder : Folder) (imageName : String) : ℤ :=
  (((specOrigTexts folder imageName).map List.length).getD 0 : ℕ)

theorem origOCRFor_texts (folder : Folder) (imageName : String) :
    (DashboardManager.origOCRFor folder imageName).map
        (fun o => o.textRegions.map (fun r => r.text)) =
      specOrigTexts folder imageName := by
  unfold DashboardManager.origOCRFor specOrigTexts
  cases hlk : (folder.ocrResults.getD []).lookup imageName with
  | none => rfl
  | some oc =>
    simp only [Option.map_some', List.map_map]
    rfl

theorem origOCRFor_count (folder : Folder) (imageName : String) :
    ((((DashboardManager.origOCRFor folder imageName).map
        (fun o => o.textRegions.length)).getD 0 : ℕ) : ℤ) =
      specOrigCount folder imageName := by
  unfold DashboardManager.origOCRFor specOrigCount specOrigTexts
  cases hlk : (folder.ocrResults.getD []).lookup imageName with
  | none => rfl
  | some oc =>
    simp only [Option.map_some', Option.getD_some, List.length_map]

/-- Claim C6 (confirmed): for every folder image that has a calibrated
annotation list, the export entry's `modifications` satisfy
`annotationsAdded` = number of manual regions; `annotationsDeleted` =
`max 0 (originalCount - (calibratedCount - manualCount))`; `totalEdits` =
`|originalCount - calibratedCount| + manualCount`; and `textChanged` holds
iff the region counts differ or the non-manual regions' texts differ from
the original OCR texts (compared as an optional list: absent OCR differs
from every list, mirroring `JSON.stringify(undefined)`). -/
theorem export_modifications_spec (folder : Folder) (imageName : String) (ann : AnnSet)
    (hfile : imageName ∈ (folder.imageFiles.getD []).map (fun f => f.name))
    (hann : (folder.annotations.getD []).lookup imageName = some ann) :
    ∃ e, (imageName, e) ∈ (DashboardManager.processExportData folder).images ∧
      e.modifications.annotationsAdded =
        ((ann.textRegions.filter (fun r => r.isManual)).length : ℤ) ∧
      e.modifications.annotationsDeleted =
        max 0 (specOrigCount folder imageName -
          ((ann.textRegions.length : ℤ) -
            ((ann.textRegions.filter (fun r => r.isManual)).length : ℤ))) ∧
      e.modifications.totalEdits =
        |specOrigCount folder imageName - (ann.textRegions.length : ℤ)| +
          ((ann.textRegions.filter (fun r => r.isManual)).length : ℤ) ∧
      (e.modifications.textChanged = true ↔
        (¬ specOrigCount folder imageName = (ann.textRegions.length : ℤ) ∨
         ¬ specOrigTexts folder imageName =
            some ((ann.textRegions.filter (fun r => !r.isManual)).map (fun r => r.text)))) := by
  refine ⟨DashboardManager.imageExportFor folder imageName, ?_, ?_, ?_, ?_, ?_⟩
  · rw [List.mem_map] at hfile
    obtain ⟨f, hf, hfn⟩ := hfile
    unfold DashboardManager.processExportData
    simp only [List.mem_map]
    exact ⟨f, hf, by rw [hfn]⟩
  all_goals
    have hmods : (DashboardManager.imageExportFor folder imageName).modifications =
        DashboardManager.modificationsFor (DashboardManager.origOCRFor folder imageName)
          ann.textRegions := by
      unfold DashboardManager.imageExportFor
      rw [hann]
  · rw [hmods]
    rfl
  · rw [hmods]
    simp only [DashboardManager.modificationsFor]
    rw [origOCRFor_count]
  · rw [hmods]
    simp only [DashboardManager.modificationsFor]
    rw [origOCRFor_count]
  · rw [hmods]
    simp only [DashboardManager.modificationsFor, Bool.or_eq_true, decide_eq_true_eq]
    rw [origOCRFor_count, origOCRFor_texts]

/-- A concrete calibrated folder for the C6 witness: one image, one OCR
region, one calibrated region whose text was edited. -/
def folderC6 : Folder :=
  { folderName := some "f"
    status := some "calibrated"
    imageFiles := some [⟨"a.jpg", "image/jpeg", 1, 0, [1]⟩]
    ocrResults := some [("a.jpg", { words_result := some [{ words := some "你好" }] })]
    annotations := some [("a.jpg", ⟨"a.jpg", [⟨1, "你好吗", none, false⟩]⟩)]
    metadata := some ⟨1, 1, 1⟩ }

/-- C6 witness: the modifications theorem applied to the concrete
calibrated folder. -/
theorem export_modifications_spec_witness :
    ∃ e, ("a.jpg", e) ∈ (DashboardManager.processExportData folderC6).images ∧
      e.modifications.annotationsAdded =
        ((((folderC6.annotations.getD []).lookup "a.jpg").getD
          ⟨"a.jpg", []⟩).textRegions.filter (fun r => r.isManual)).length ∧
      e.modifications.annotationsDeleted =
        max 0 (specOrigCount folderC6 "a.jpg" -
          (((((folderC6.annotations.getD []).lookup "a.jpg").getD
              ⟨"a.jpg", []⟩).textRegions.length : ℤ) -
            (((((folderC6.annotations.getD []).lookup "a.jpg").getD
              ⟨"a.jpg", []⟩).textRegions.filter (fun r => r.isManual)).length : ℤ))) ∧
      e.modifications.totalEdits =
        |specOrigCount folderC6 "a.jpg" -
          ((((folderC6.annotations.getD []).lookup "a.jpg").getD
            ⟨"a.jpg", []⟩).textRegions.length : ℤ)| +
          (((((folderC6.annotations.getD []).lookup "a.jpg").getD
            ⟨"a.jpg", []⟩).textRegions.filter (fun r => r.isManual)).length : ℤ) ∧
      (e.modifications.textChanged = true ↔
        (¬ specOrigCount folderC6 "a.jpg" =
            ((((folderC6.annotations.getD []).lookup "a.jpg").getD
              ⟨"a.jpg", []⟩).textRegions.length : ℤ) ∨
         ¬ specOrigTexts folderC6 "a.jpg" =
            some (((((folderC6.annotations.getD []).lookup "a.jpg").getD
              ⟨"a.jpg", []⟩).textRegions.filter (fun r => !r.isManual)).map
                (fun r => r.text)))) :=
  export_modifications_spec folderC6 "a.jpg"
    (((folderC6.annotations.getD []).lookup "a.jpg").getD ⟨"a.jpg", []⟩)
    (by decide) rfl
